import Mathlib

/-!
Verification of the SillyDelay stereo delay plugin (src/src/lib.rs).

The audio samples are `f32` in the source; they are embedded here as exact
rationals (`ℚ`), so every arithmetic identity below is about the algorithm's
exact dataflow.  Machine integers do not occur in the relevant code paths
except for the `as usize` capacity truncation, modelled with `Rat.floor` and
`Int.toNat` (truncation of a nonnegative float towards zero is its floor;
a negative value saturates to zero, which `Int.toNat` reproduces).
-/

/-- Modelled from the spec: the paired-sample circular buffer is the external
`queues` crate's `CircularBuffer` type, whose source is not part of this
repository.  Per the spec the Delay Line owns a `capacity` fixed at
construction and an ordered storage of samples; we keep the storage as a list
with the oldest element first, exactly the crate's backing vector. -/
structure CircularBuffer (α : Type) where
  capacity : Nat
  storage : List α
deriving DecidableEq

/-- Modelled from the spec: construction pre-fills every one of the
`capacity` slots with the fill value, so the very first pop never signals
empty. -/
def CircularBuffer.with_default {α : Type} (capacity : Nat) (fill : α) :
    CircularBuffer α :=
  ⟨capacity, List.replicate capacity fill⟩

/-- Modelled from the spec: `push_pop` atomically inserts the argument as the
newest element and returns the oldest element, which is discarded.  When the
buffer holds fewer than `capacity` elements (impossible after a pre-filled
construction) the crate merely appends and returns nothing; the crate wraps
the result in an always-`Ok` `Result`, which carries no information and is
dropped here. -/
def CircularBuffer.add {α : Type} (b : CircularBuffer α) (v : α) :
    CircularBuffer α × Option α :=
  if b.storage.length < b.capacity then
    ({ b with storage := b.storage ++ [v] }, none)
  else
    match b.storage with
    | [] => ({ b with storage := [] }, some v)
    | x :: rest => ({ b with storage := rest ++ [v] }, some x)

/-- Observer for the Delay Line: feed a list of pushed values one `add` at a
time and collect the popped results in order. -/
def runPushPop {α : Type} (b : CircularBuffer α) : List α → List (Option α)
  | [] => []
  | v :: vs => (b.add v).2 :: runPushPop (b.add v).1 vs

/-- Constant `FEEDBACK_FACTOR` from lib.rs line 12. -/
def FEEDBACK_FACTOR : ℚ := 0.1

/-- Function `mix_samples` from lib.rs lines 216-222. -/
def mix_samples (original added amount : ℚ) : ℚ :=
  let dry := 1 - amount
  original * dry + added * amount

/-- Function `reload_delay_buffer` from lib.rs lines 224-239: the capacity is
`(sample_rate * delay_time * 2.) as usize` and the buffer is pre-filled with
`(0, 0)` pairs. -/
def reload_delay_buffer (sample_rate delay_time : ℚ) :
    CircularBuffer (ℚ × ℚ) :=
  let size := (Rat.floor (sample_rate * delay_time * 2)).toNat
  CircularBuffer.with_default size (0, 0)

/-- The `SillyDelay` plugin struct from lib.rs lines 15-22. -/
structure SillyDelay where
  delay_time : ℚ
  dry_wet : ℚ
  sample_rate : ℚ
  delay_buffer : CircularBuffer (ℚ × ℚ)
  feedback_amt : ℚ
deriving DecidableEq

/-- The `Default` impl from lib.rs lines 24-36. -/
def sillyDefault : SillyDelay :=
  ⟨0.001, 1.0, 44100, reload_delay_buffer 44100 0.001, 0.1⟩

/-- Method `set_parameter` from lib.rs lines 83-98.  The parameter index is an
`i32`, embedded as `ℤ`. -/
def SillyDelay.set_parameter (s : SillyDelay) (index : ℤ) (value : ℚ) :
    SillyDelay :=
  if index = 0 then
    let dt := max value 0.001
    { s with delay_time := dt,
             delay_buffer := reload_delay_buffer s.sample_rate dt }
  else if index = 1 then
    { s with feedback_amt := max value 0.1 }
  else if index = 2 then
    { s with dry_wet := value }
  else s

/-- Method `get_parameter` from lib.rs lines 101-108. -/
def SillyDelay.get_parameter (s : SillyDelay) (index : ℤ) : ℚ :=
  if index = 0 then s.delay_time
  else if index = 1 then s.feedback_amt
  else if index = 2 then s.dry_wet
  else 0

/-- Method `set_sample_rate` from lib.rs lines 145-149. -/
def SillyDelay.set_sample_rate (s : SillyDelay) (sample_rate : ℚ) :
    SillyDelay :=
  { s with sample_rate := sample_rate,
           delay_buffer := reload_delay_buffer sample_rate s.delay_time }

/-- State threaded through the per-sample loop of `process`: the delay
buffer and the two feedback accumulators `fb_l`, `fb_r`. -/
structure ProcState where
  buf : CircularBuffer (ℚ × ℚ)
  fb_l : ℚ
  fb_r : ℚ
deriving DecidableEq

/-- One iteration of the inner loop of `process` (lib.rs lines 188-209):
push `input + feedback` into the delay buffer; if a value was popped, scale
it by `feedback_amt - FEEDBACK_FACTOR` into the feedback accumulators and
overwrite the output sample with `mix_samples`; otherwise leave the output
sample and the accumulators untouched. -/
def processSample (dry_wet feedback_amt : ℚ) (st : ProcState)
    (inp out : ℚ × ℚ) : ProcState × (ℚ × ℚ) :=
  match (st.buf.add (inp.1 + st.fb_l, inp.2 + st.fb_r)) with
  | (b2, some t) =>
      (⟨b2, t.1 * (feedback_amt - FEEDBACK_FACTOR),
            t.2 * (feedback_amt - FEEDBACK_FACTOR)⟩,
       (mix_samples out.1 t.1 dry_wet, mix_samples out.2 t.2 dry_wet))
  | (b2, none) => (⟨b2, st.fb_l, st.fb_r⟩, out)

/-- The frame loop of `process`: each frame carries the two input samples
and the two current output samples, zipped exactly as the nested
`zip` iterators of lib.rs lines 175-187 do. -/
def processLoop (dry_wet feedback_amt : ℚ) (st : ProcState) :
    List (((ℚ × ℚ) × ℚ) × ℚ) → ProcState × List (ℚ × ℚ)
  | [] => (st, [])
  | (((il, ir), ol), o_r) :: rest =>
      let step := processSample dry_wet feedback_amt st (il, ir) (ol, o_r)
      let tail := processLoop dry_wet feedback_amt step.1 rest
      (tail.1, step.2 :: tail.2)

/-- Method `process` from lib.rs lines 152-213: the feedback accumulators start at
`(0, 0)` on every call, the four channel slices are zipped into frames
(truncating to the shortest, as `zip` does), and the loop is run.  The
result is the updated plugin state and the list of (left, right) output
samples written over the frames that were iterated. -/
def SillyDelay.process (s : SillyDelay) (in_l in_r out_l out_r : List ℚ) :
    SillyDelay × List (ℚ × ℚ) :=
  let frames := ((in_l.zip in_r).zip out_l).zip out_r
  let r := processLoop s.dry_wet s.feedback_amt ⟨s.delay_buffer, 0, 0⟩ frames
  ({ s with delay_buffer := r.1.buf }, r.2)

theorem reload_100_001_eval :
    reload_delay_buffer 100 0.01 = ⟨2, [(0, 0), (0, 0)]⟩ := by
  have h : (Rat.floor ((100 : ℚ) * 0.01 * 2)).toNat = 2 := by
    norm_num [Rat.floor_def']
    rfl
  simp only [reload_delay_buffer, CircularBuffer.with_default, h]
  rfl

/-- C1: with sampleRate=100, delayTimeNormalized=0.01, feedback=0.1 and
dryWet=1.0 the delay line capacity is 2, and a block [1,0,0,0,0] on both
channels comes out as [0,0,1,0,0] on both channels: a pure 2-sample delay,
no feedback contribution. -/
theorem end_to_end_pure_delay :
    (reload_delay_buffer 100 0.01).capacity = 2 ∧
    (SillyDelay.process ⟨0.01, 1.0, 100, reload_delay_buffer 100 0.01, 0.1⟩
        [1, 0, 0, 0, 0] [1, 0, 0, 0, 0]
        [0, 0, 0, 0, 0] [0, 0, 0, 0, 0]).2
      = [(0, 0), (0, 0), (1, 1), (0, 0), (0, 0)] := by
  rw [reload_100_001_eval]
  refine ⟨rfl, ?_⟩
  simp [SillyDelay.process, processLoop, processSample, CircularBuffer.add,
    mix_samples, FEEDBACK_FACTOR]
  norm_num

/-- C2 counterexample: with feedback=0.5 (effective gain 0.4) the 5-frame
block [1,0,0,0,0] does NOT produce 0.4 at frame 4; the value at frame 4 is
0 on both channels. -/
theorem feedback_echo_frame4_refuted :
    ((SillyDelay.process ⟨0.01, 1.0, 100, reload_delay_buffer 100 0.01, 0.5⟩
        [1, 0, 0, 0, 0] [1, 0, 0, 0, 0]
        [0, 0, 0, 0, 0] [0, 0, 0, 0, 0]).2)[4]?
      = some (((0 : ℚ), (0 : ℚ))) ∧
    ¬ ((SillyDelay.process ⟨0.01, 1.0, 100, reload_delay_buffer 100 0.01, 0.5⟩
        [1, 0, 0, 0, 0] [1, 0, 0, 0, 0]
        [0, 0, 0, 0, 0] [0, 0, 0, 0, 0]).2)[4]?
      = some (((0.4 : ℚ), (0.4 : ℚ))) := by
  rw [reload_100_001_eval]
  have h : ((SillyDelay.process ⟨0.01, 1.0, 100, ⟨2, [(0, 0), (0, 0)]⟩, 0.5⟩
        [1, 0, 0, 0, 0] [1, 0, 0, 0, 0]
        [0, 0, 0, 0, 0] [0, 0, 0, 0, 0]).2)[4]?
      = some (((0 : ℚ), (0 : ℚ))) := by
    simp [SillyDelay.process, processLoop, processSample, CircularBuffer.add,
      mix_samples, FEEDBACK_FACTOR]
  refine ⟨h, ?_⟩
  rw [h]
  intro hc
  have : ((0 : ℚ), (0 : ℚ)) = (((0.4 : ℚ), (0.4 : ℚ))) := by
    exact Option.some.inj hc
  have h04 : (0 : ℚ) = 0.4 := congrArg Prod.fst this
  norm_num at h04

/-- C2 amended: with feedback=0.5 the effective feedback gain is
0.5 - FEEDBACK_FACTOR = 0.4, and the decayed echo appears two samples after
its re-injection at frame 3, i.e. at frame 5: processing the 6-frame block
[1,0,0,0,0,0] yields exactly 0.4 on both channels at frame 5 (the 5-frame
block of the original claim ends before the echo emerges). -/
theorem feedback_echo_frame5 :
    (0.5 : ℚ) - FEEDBACK_FACTOR = 0.4 ∧
    ((SillyDelay.process ⟨0.01, 1.0, 100, reload_delay_buffer 100 0.01, 0.5⟩
        [1, 0, 0, 0, 0, 0] [1, 0, 0, 0, 0, 0]
        [0, 0, 0, 0, 0, 0] [0, 0, 0, 0, 0, 0]).2)[5]?
      = some (((0.4 : ℚ), (0.4 : ℚ))) := by
  rw [reload_100_001_eval]
  constructor
  · norm_num [FEEDBACK_FACTOR]
  · simp [SillyDelay.process, processLoop, processSample, CircularBuffer.add,
      mix_samples, FEEDBACK_FACTOR]
    norm_num

theorem add_full_nil {α : Type} (v : α) :
    CircularBuffer.add ⟨0, ([] : List α)⟩ v = (⟨0, []⟩, some v) := rfl

theorem add_full_cons {α : Type} (cap : Nat) (x : α) (rest : List α) (v : α)
    (h : (x :: rest).length = cap) :
    CircularBuffer.add ⟨cap, x :: rest⟩ v = (⟨cap, rest ++ [v]⟩, some x) := by
  unfold CircularBuffer.add
  rw [if_neg (by simp only [List.length_cons] at h ⊢; omega)]

theorem runPushPop_full {α : Type} (vs : List α) :
    ∀ b : CircularBuffer α, b.storage.length = b.capacity →
      runPushPop b vs = ((b.storage ++ vs).take vs.length).map some := by
  induction vs with
  | nil => intro b h; simp [runPushPop]
  | cons v vs ih =>
    intro b h
    obtain ⟨cap, st⟩ := b
    cases st with
    | nil =>
      have hc : cap = 0 := by simpa using h.symm
      subst hc
      simp only [runPushPop, add_full_nil]
      rw [ih ⟨0, ([] : List α)⟩ rfl]
      simp
    | cons x rest =>
      have hc : (x :: rest).length = cap := by simpa using h
      have hlen : ((⟨cap, rest ++ [v]⟩ : CircularBuffer α)).storage.length
          = ((⟨cap, rest ++ [v]⟩ : CircularBuffer α)).capacity := by
        simp only [List.length_cons] at hc
        simp only [List.length_append, List.length_cons, List.length_nil]
        omega
      simp only [runPushPop, add_full_cons cap x rest v hc]
      rw [ih ⟨cap, rest ++ [v]⟩ hlen]
      simp only [List.length_cons, List.take_succ_cons, List.map_cons,
        List.cons_append, List.append_assoc, List.singleton_append,
        List.nil_append]

/-- C4: on a Delay Line of capacity C constructed pre-filled with a fill
value, over any sequence of more than C push_pop calls, the k-th popped
value (0-indexed) is the fill value for k < C regardless of what was
pushed, and equals the (k-C)-th pushed value for k >= C. -/
theorem delayLine_fifo_prefill (C : ℕ) (fill : ℚ) (vs : List ℚ)
    (hN : C < vs.length) (k : ℕ) (hk : k < vs.length) :
    (runPushPop (CircularBuffer.with_default C fill) vs)[k]? =
      if k < C then some (some fill) else (vs[k - C]?).map some := by
  rw [runPushPop_full vs (CircularBuffer.with_default C fill)
    (by simp [CircularBuffer.with_default])]
  rw [List.getElem?_map, List.getElem?_take, if_pos hk]
  simp only [CircularBuffer.with_default]
  rw [List.getElem?_append]
  simp only [List.length_replicate, List.getElem?_replicate]
  by_cases hkC : k < C
  · rw [if_pos hkC, if_pos hkC, if_pos hkC]
    rfl
  · rw [if_neg hkC, if_neg hkC]

theorem delayLine_fifo_prefill_witness :
    ((2 < 5 ∧ 3 < 5) ∧ (2 < 5 ∧ 1 < 5)) ∧
    ((runPushPop (CircularBuffer.with_default 2 (9 : ℚ))
        [1, 2, 3, 4, 5])[3]? =
      if 3 < 2 then some (some (9 : ℚ))
      else ((([1, 2, 3, 4, 5] : List ℚ))[3 - 2]?).map some) ∧
    ((runPushPop (CircularBuffer.with_default 2 (9 : ℚ))
        [1, 2, 3, 4, 5])[1]? =
      if 1 < 2 then some (some (9 : ℚ))
      else ((([1, 2, 3, 4, 5] : List ℚ))[1 - 2]?).map some) :=
  ⟨⟨⟨by norm_num, by norm_num⟩, ⟨by norm_num, by norm_num⟩⟩,
    delayLine_fifo_prefill 2 9 [1, 2, 3, 4, 5] (by norm_num) 3 (by norm_num),
    delayLine_fifo_prefill 2 9 [1, 2, 3, 4, 5] (by norm_num) 1 (by norm_num)⟩

/-- C3 counterexample: the capacity is NOT always at least 1 for delay
times allowed by the clamp: at the engine-holdable sample rate 100 and the
minimal clamped delay time 0.001, the sizing rule gives
floor(100 * 0.001 * 2) = floor(0.2) = 0. -/
theorem capacity_not_always_pos :
    (0.001 : ℚ) ≥ 0.001 ∧ (reload_delay_buffer 100 0.001).capacity = 0 := by
  constructor
  · exact le_refl _
  · simp only [reload_delay_buffer, CircularBuffer.with_default]
    norm_num [Rat.floor_def']

/-- C3 amended: the sizing rule can yield capacity 0 (see the
counterexample), but the per-sample loop still has no reachable error path
for ANY capacity: a reloaded buffer holds exactly `capacity` elements, `add`
preserves that occupancy, and on any such buffer `add` always pops a value,
so the pop-returns-nothing branch is never taken (and the crate's `Result`
is always `Ok`, so the unwrap cannot fail). -/
theorem process_no_error_path (b : CircularBuffer (ℚ × ℚ)) (x : ℚ × ℚ)
    (h : b.storage.length = b.capacity) :
    ((b.add x).1.storage.length = (b.add x).1.capacity ∧
      ((b.add x).2).isSome = true) ∧
    ∀ sr dt : ℚ, (reload_delay_buffer sr dt).storage.length
        = (reload_delay_buffer sr dt).capacity := by
  constructor
  · obtain ⟨cap, st⟩ := b
    cases st with
    | nil =>
      have hc : cap = 0 := by simpa using h.symm
      subst hc
      rw [add_full_nil]
      exact ⟨rfl, rfl⟩
    | cons y rest =>
      have hc : (y :: rest).length = cap := by simpa using h
      rw [add_full_cons cap y rest x hc]
      refine ⟨?_, rfl⟩
      simp only [List.length_cons] at hc
      simp only [List.length_append, List.length_cons, List.length_nil]
      omega
  · intro sr dt
    simp [reload_delay_buffer, CircularBuffer.with_default]

theorem process_no_error_path_witness :
    (CircularBuffer.with_default 2 ((0 : ℚ), (0 : ℚ))).storage.length
        = (CircularBuffer.with_default 2 ((0 : ℚ), (0 : ℚ))).capacity ∧
    ((((CircularBuffer.with_default 2 ((0 : ℚ), (0 : ℚ))).add
            (1, 1)).1.storage.length
          = (((CircularBuffer.with_default 2 ((0 : ℚ), (0 : ℚ))).add
            (1, 1)).1.capacity) ∧
        ((((CircularBuffer.with_default 2 ((0 : ℚ), (0 : ℚ))).add
            (1, 1)).2).isSome = true)) ∧
      ∀ sr dt : ℚ, (reload_delay_buffer sr dt).storage.length
          = (reload_delay_buffer sr dt).capacity) :=
  ⟨by simp [CircularBuffer.with_default],
    process_no_error_path (CircularBuffer.with_default 2 ((0 : ℚ), (0 : ℚ)))
      (1, 1) (by simp [CircularBuffer.with_default])⟩

/-- C5 counterexample: the set-parameter clamp has no upper bound, so the
stored feedbackAmount is not confined to [0.1, 1.0]: setting 2.0 stores 2.0
and the effective gain 1.9 lies outside [0.0, 0.9); moreover even at the
claimed domain's endpoint 1.0 the effective gain is exactly 0.9, which the
half-open interval [0.0, 0.9) excludes. -/
theorem feedback_gain_interval_refuted :
    (sillyDefault.set_parameter 1 2).feedback_amt = 2 ∧
    ¬ ((sillyDefault.set_parameter 1 2).feedback_amt - FEEDBACK_FACTOR
        < 0.9) ∧
    (sillyDefault.set_parameter 1 1).feedback_amt - FEEDBACK_FACTOR = 0.9 ∧
    ¬ ((sillyDefault.set_parameter 1 1).feedback_amt - FEEDBACK_FACTOR
        < 0.9) := by
  have h2 : (sillyDefault.set_parameter 1 2).feedback_amt = 2 := by
    simp only [SillyDelay.set_parameter, sillyDefault]
    norm_num
  have h1 : (sillyDefault.set_parameter 1 1).feedback_amt = 1 := by
    simp only [SillyDelay.set_parameter, sillyDefault]
    norm_num
  refine ⟨h2, ?_, ?_, ?_⟩ <;> rw [FEEDBACK_FACTOR] <;>
    first
      | (rw [h2]; norm_num)
      | (rw [h1]; norm_num)

/-- C5 amended: the stored feedbackAmount after the clamp is max(v, 0.1)
with no upper bound; the per-sample feedback update multiplies the popped
sample by exactly feedback_amt - FEEDBACK_FACTOR, and whenever the host
value v is at most 1 this effective gain lies in the CLOSED interval
[0.0, 0.9], attaining 0.9 at v = 1. -/
theorem feedback_gain_per_sample_range (s : SillyDelay) (v : ℚ) (hv : v ≤ 1)
    (st : ProcState) (inp out : ℚ × ℚ) (t : ℚ × ℚ)
    (ht : (st.buf.add (inp.1 + st.fb_l, inp.2 + st.fb_r)).2 = some t) :
    (processSample (s.set_parameter 1 v).dry_wet
        (s.set_parameter 1 v).feedback_amt st inp out).1.fb_l
      = t.1 * ((s.set_parameter 1 v).feedback_amt - FEEDBACK_FACTOR) ∧
    0 ≤ (s.set_parameter 1 v).feedback_amt - FEEDBACK_FACTOR ∧
    (s.set_parameter 1 v).feedback_amt - FEEDBACK_FACTOR ≤ 0.9 := by
  have hfa : (s.set_parameter 1 v).feedback_amt = max v 0.1 := by
    simp only [SillyDelay.set_parameter]
    norm_num
  refine ⟨?_, ?_, ?_⟩
  · rcases hadd : st.buf.add (inp.1 + st.fb_l, inp.2 + st.fb_r) with ⟨b2, o⟩
    rw [hadd] at ht
    simp only at ht
    subst ht
    simp [processSample, hadd]
  · rw [hfa, FEEDBACK_FACTOR]
    have := le_max_right v (0.1 : ℚ)
    linarith
  · rw [hfa, FEEDBACK_FACTOR]
    have := max_le hv (by norm_num : (0.1 : ℚ) ≤ 1)
    linarith

theorem feedback_gain_per_sample_range_witness :
    ((1 : ℚ) ≤ 1 ∧
      (((CircularBuffer.with_default 1 ((0 : ℚ), (0 : ℚ))).add
          ((0 : ℚ) + 0, (0 : ℚ) + 0)).2 = some ((0 : ℚ), (0 : ℚ)))) ∧
    ((processSample (sillyDefault.set_parameter 1 1).dry_wet
        (sillyDefault.set_parameter 1 1).feedback_amt
        ⟨CircularBuffer.with_default 1 ((0 : ℚ), (0 : ℚ)), 0, 0⟩
        (0, 0) (0, 0)).1.fb_l
      = (0 : ℚ) * ((sillyDefault.set_parameter 1 1).feedback_amt
          - FEEDBACK_FACTOR) ∧
    0 ≤ (sillyDefault.set_parameter 1 1).feedback_amt - FEEDBACK_FACTOR ∧
    (sillyDefault.set_parameter 1 1).feedback_amt - FEEDBACK_FACTOR
        ≤ 0.9) :=
  ⟨⟨le_refl 1, rfl⟩,
    feedback_gain_per_sample_range sillyDefault 1 (le_refl 1)
      ⟨CircularBuffer.with_default 1 ((0 : ℚ), (0 : ℚ)), 0, 0⟩
      (0, 0) (0, 0) ((0 : ℚ), (0 : ℚ)) rfl⟩

theorem ratFloor_eq_intFloor (q : ℚ) : (Rat.floor q : ℤ) = ⌊q⌋ := by
  rw [Rat.floor_def, Rat.floor_def']

/-- C6: whenever the sample rate or the delay time changes, the rebuilt
delay line's capacity is floor(sampleRate * delayTimeNormalized * 2) (the
delay time being the freshly clamped value on a parameter change); in
particular the capacity at sampleRate 44100 and delayTimeNormalized 0.001
is 88. -/
theorem capacity_sizing (s : SillyDelay) (sr v : ℚ)
    (hsr : 0 ≤ sr) (hrate : 0 ≤ s.sample_rate) (hdt : 0 ≤ s.delay_time) :
    (((s.set_sample_rate sr).delay_buffer.capacity : ℤ)
        = ⌊sr * s.delay_time * 2⌋) ∧
    (((s.set_parameter 0 v).delay_buffer.capacity : ℤ)
        = ⌊s.sample_rate * max v 0.001 * 2⌋) ∧
    (reload_delay_buffer 44100 0.001).capacity = 88 := by
  have key : ∀ a b : ℚ, 0 ≤ a → 0 ≤ b →
      ((reload_delay_buffer a b).capacity : ℤ) = ⌊a * b * 2⌋ := by
    intro a b ha hb
    simp only [reload_delay_buffer, CircularBuffer.with_default]
    rw [ratFloor_eq_intFloor]
    rw [Int.toNat_of_nonneg]
    exact Int.floor_nonneg.mpr (by positivity)
  refine ⟨?_, ?_, ?_⟩
  · exact key sr s.delay_time hsr hdt
  · have hstep : (s.set_parameter 0 v).delay_buffer
        = reload_delay_buffer s.sample_rate (max v 0.001) := by
      simp [SillyDelay.set_parameter]
    rw [hstep]
    exact key s.sample_rate (max v 0.001) hrate
      (le_trans (by norm_num) (le_max_right v 0.001))
  · have h88 : ((reload_delay_buffer 44100 0.001).capacity : ℤ) = 88 := by
      rw [key 44100 0.001 (by norm_num) (by norm_num)]
      rw [show ((44100 : ℚ) * 0.001 * 2) = 441/5 by norm_num,
        Int.floor_eq_iff]
      norm_num
    exact_mod_cast h88

theorem capacity_sizing_witness :
    ((0 : ℚ) ≤ 50 ∧ (0 : ℚ) ≤ sillyDefault.sample_rate ∧
      (0 : ℚ) ≤ sillyDefault.delay_time) ∧
    ((((sillyDefault.set_sample_rate 50).delay_buffer.capacity : ℤ)
        = ⌊(50 : ℚ) * sillyDefault.delay_time * 2⌋) ∧
    (((sillyDefault.set_parameter 0 0.25).delay_buffer.capacity : ℤ)
        = ⌊sillyDefault.sample_rate * max (0.25 : ℚ) 0.001 * 2⌋) ∧
    (reload_delay_buffer 44100 0.001).capacity = 88) :=
  ⟨⟨by norm_num, by norm_num [sillyDefault], by norm_num [sillyDefault]⟩,
    capacity_sizing sillyDefault 50 0.25 (by norm_num)
      (by norm_num [sillyDefault]) (by norm_num [sillyDefault])⟩

/-- C7: setting parameter 0 to 0.0 makes a subsequent get of parameter 0
return the clamped 0.001; setting parameter 1 to 0.0 makes a get of
parameter 1 return 0.1; setting parameter 2 to any value v makes a get of
parameter 2 return v unchanged. -/
theorem param_clamp_passthrough (s : SillyDelay) (v : ℚ) :
    (s.set_parameter 0 0).get_parameter 0 = 0.001 ∧
    (s.set_parameter 1 0).get_parameter 1 = 0.1 ∧
    (s.set_parameter 2 v).get_parameter 2 = v := by
  refine ⟨?_, ?_, ?_⟩ <;>
    simp [SillyDelay.set_parameter, SillyDelay.get_parameter] <;>
    norm_num

/-- C8: the feedback accumulators are re-seeded to 0 at the start of every
`process` call and never carried across blocks: for EVERY engine state
(hence regardless of any previously processed block), the first frame of a
block is pushed into the delay line as the raw input pair (il, ir) with
zero feedback contribution, and the first output frame is the mix of the
previous output sample with the popped pair alone. -/
theorem feedback_reseeded_first_frame (s : SillyDelay) (il ir ol o_r : ℚ)
    (in_l in_r out_l out_r : List ℚ) (t : ℚ × ℚ)
    (ht : (s.delay_buffer.add (il, ir)).2 = some t) :
    ((s.process (il :: in_l) (ir :: in_r)
        (ol :: out_l) (o_r :: out_r)).2)[0]?
      = some (mix_samples ol t.1 s.dry_wet, mix_samples o_r t.2 s.dry_wet)
    := by
  rcases hadd : s.delay_buffer.add (il, ir) with ⟨b2, o⟩
  rw [hadd] at ht
  simp only at ht
  subst ht
  simp [SillyDelay.process, List.zip_cons_cons, processLoop, processSample,
    hadd]

theorem feedback_reseeded_first_frame_witness :
    (((CircularBuffer.with_default 1 ((0 : ℚ), (0 : ℚ))).add (5, 7)).2
        = some ((0 : ℚ), (0 : ℚ))) ∧
    (((⟨0.001, 1.0, 100, CircularBuffer.with_default 1 ((0 : ℚ), (0 : ℚ)),
          0.1⟩ : SillyDelay).process [(5 : ℚ)] [7] [2] [3]).2)[0]?
      = some (mix_samples 2 ((0 : ℚ), (0 : ℚ)).1
            (⟨0.001, 1.0, 100,
              CircularBuffer.with_default 1 ((0 : ℚ), (0 : ℚ)),
              0.1⟩ : SillyDelay).dry_wet,
          mix_samples 3 ((0 : ℚ), (0 : ℚ)).2
            (⟨0.001, 1.0, 100,
              CircularBuffer.with_default 1 ((0 : ℚ), (0 : ℚ)),
              0.1⟩ : SillyDelay).dry_wet) :=
  ⟨rfl,
    feedback_reseeded_first_frame
      ⟨0.001, 1.0, 100, CircularBuffer.with_default 1 ((0 : ℚ), (0 : ℚ)),
        0.1⟩
      5 7 2 3 [] [] [] [] ((0 : ℚ), (0 : ℚ)) rfl⟩

/-- C9: setting parameter index 1 or 2, or any index other than 0, 1, 2,
leaves the delay buffer (contents and capacity), the stored sample rate and
the delay time unchanged; index 1 additionally leaves dry/wet unchanged and
index 2 leaves the feedback amount unchanged; an index outside 0, 1, 2
changes nothing at all.  Only index 0 (or a sample-rate change) rebuilds
the delay line. -/
theorem set_param_frame_effect (s : SillyDelay) (v : ℚ) (i : ℤ)
    (hi : i ≠ 0) :
    (s.set_parameter i v).delay_buffer = s.delay_buffer ∧
    (s.set_parameter i v).sample_rate = s.sample_rate ∧
    (s.set_parameter i v).delay_time = s.delay_time ∧
    (s.set_parameter 1 v).dry_wet = s.dry_wet ∧
    (s.set_parameter 2 v).feedback_amt = s.feedback_amt ∧
    (i ≠ 1 → i ≠ 2 → s.set_parameter i v = s) := by
  have h1v : s.set_parameter 1 v = { s with feedback_amt := max v 0.1 } := by
    norm_num [SillyDelay.set_parameter]
  have h2v : s.set_parameter 2 v = { s with dry_wet := v } := by
    norm_num [SillyDelay.set_parameter]
  by_cases h1 : i = 1
  · subst h1
    rw [h1v]
    exact ⟨rfl, rfl, rfl, rfl, by rw [h2v], fun hc _ => absurd rfl hc⟩
  · by_cases h2 : i = 2
    · subst h2
      rw [h2v]
      exact ⟨rfl, rfl, rfl, by rw [h1v], rfl, fun _ hc => absurd rfl hc⟩
    · have hx : s.set_parameter i v = s := by
        simp [SillyDelay.set_parameter, hi, h1, h2]
      rw [hx]
      exact ⟨rfl, rfl, rfl, by rw [h1v], by rw [h2v], fun _ _ => rfl⟩

theorem set_param_frame_effect_witness :
    ((5 : ℤ) ≠ 0) ∧
    ((sillyDefault.set_parameter 5 0.7).delay_buffer
        = sillyDefault.delay_buffer ∧
    (sillyDefault.set_parameter 5 0.7).sample_rate
        = sillyDefault.sample_rate ∧
    (sillyDefault.set_parameter 5 0.7).delay_time
        = sillyDefault.delay_time ∧
    (sillyDefault.set_parameter 1 0.7).dry_wet = sillyDefault.dry_wet ∧
    (sillyDefault.set_parameter 2 0.7).feedback_amt
        = sillyDefault.feedback_amt ∧
    ((5 : ℤ) ≠ 1 → (5 : ℤ) ≠ 2 →
      sillyDefault.set_parameter 5 0.7 = sillyDefault)) :=
  ⟨by norm_num, set_param_frame_effect sillyDefault 0.7 5 (by norm_num)⟩

/-- C10: no upper bound is enforced on any parameter: any value at or above
the index's lower clamp is stored exactly, even above 1.0, and a stored
feedback amount above 1.0 makes the effective gain exceed 0.9. -/
theorem no_upper_bound_params (s : SillyDelay) (v : ℚ)
    (h0 : 0.001 ≤ v) (h1 : 0.1 ≤ v) :
    (s.set_parameter 0 v).delay_time = v ∧
    (s.set_parameter 1 v).feedback_amt = v ∧
    (s.set_parameter 2 v).dry_wet = v ∧
    (1 < v → 0.9 < (s.set_parameter 1 v).feedback_amt - FEEDBACK_FACTOR)
    := by
  have e0 : (s.set_parameter 0 v).delay_time = max v 0.001 := by
    norm_num [SillyDelay.set_parameter]
  have e1 : (s.set_parameter 1 v).feedback_amt = max v 0.1 := by
    norm_num [SillyDelay.set_parameter]
  have e2 : (s.set_parameter 2 v).dry_wet = v := by
    norm_num [SillyDelay.set_parameter]
  refine ⟨?_, ?_, e2, ?_⟩
  · rw [e0]; exact max_eq_left h0
  · rw [e1]; exact max_eq_left h1
  · intro hv
    rw [e1, max_eq_left h1, FEEDBACK_FACTOR]
    linarith

theorem no_upper_bound_params_witness :
    ((0.001 : ℚ) ≤ 2 ∧ (0.1 : ℚ) ≤ 2) ∧
    ((sillyDefault.set_parameter 0 2).delay_time = 2 ∧
    (sillyDefault.set_parameter 1 2).feedback_amt = 2 ∧
    (sillyDefault.set_parameter 2 2).dry_wet = 2 ∧
    ((1 : ℚ) < 2 →
      0.9 < (sillyDefault.set_parameter 1 2).feedback_amt
        - FEEDBACK_FACTOR)) :=
  ⟨⟨by norm_num, by norm_num⟩,
    no_upper_bound_params sillyDefault 2 (by norm_num) (by norm_num)⟩
